import Mathlib

/-!
Verification of the music-streaming backend's Match Engine and Audio Cache
Manager (sources: src/youtube_service.py, src/app.py), as a shallow embedding.

Strings are modelled through their character lists.  Python string operations
used by the code are embedded as executable Lean functions restricted to the
ASCII behaviour the repository exercises: `str.lower`, `str.strip`,
`str.split()` (whitespace words), `str.replace(t, '')` (non-overlapping
left-to-right removal), the substring test `in`, and `str.split(sep, 1)`.
-/

namespace MusicApp

/-- Python `c.isspace()` for the ASCII whitespace characters. -/
def pyIsSpace (c : Char) : Bool :=
  c == ' ' || c == '\t' || c == '\n' || c == '\x0d' || c == '\x0b' || c == '\x0c'

/-- Python `c.isalnum()` on ASCII: letters and digits. -/
def pyIsAlnum (c : Char) : Bool :=
  c.isAlphanum

/-- Python `s.lower()` on character lists (ASCII case folding). -/
def lowerL (l : List Char) : List Char :=
  l.map Char.toLower

/-- Python `s.strip()` on character lists: drop whitespace from both ends. -/
def stripL (l : List Char) : List Char :=
  ((l.dropWhile pyIsSpace).reverse.dropWhile pyIsSpace).reverse

/-- Python substring test `pat in l` on character lists. -/
def containsL (pat : List Char) : List Char → Bool
  | [] => pat.isEmpty
  | c :: rest => pat.isPrefixOf (c :: rest) || containsL pat rest

/-- Worker for `removeL`, structurally recursive on a fuel argument that is
initialised to the length of the scanned list. -/
def removeGo (pat : List Char) : Nat → List Char → List Char
  | _, [] => []
  | 0, l => l
  | fuel + 1, c :: rest =>
    if pat ≠ [] ∧ pat.isPrefixOf (c :: rest) then
      removeGo pat fuel (rest.drop (pat.length - 1))
    else
      c :: removeGo pat fuel rest

/-- Python `s.replace(pat, '')`: remove all non-overlapping occurrences of
`pat`, scanning left to right (a removal is not rescanned). -/
def removeL (pat l : List Char) : List Char :=
  removeGo pat l.length l

/-- Worker for `pySplitOnce`: locate the first occurrence of `pat` and return
the pieces before and after it. -/
def splitOnceGo (pat : List Char) : Nat → List Char → Option (List Char × List Char)
  | _, [] => none
  | 0, _ => none
  | fuel + 1, c :: rest =>
    if pat.isPrefixOf (c :: rest) then
      some ([], (c :: rest).drop pat.length)
    else
      match splitOnceGo pat fuel rest with
      | some (pre, post) => some (c :: pre, post)
      | none => none

/-- Python `s.split()` worker with an accumulator for the word being read
(stored reversed). -/
def wordsGo (cur : List Char) : List Char → List (List Char)
  | [] => if cur.isEmpty then [] else [cur.reverse]
  | c :: rest =>
    if pyIsSpace c then
      if cur.isEmpty then wordsGo [] rest else cur.reverse :: wordsGo [] rest
    else
      wordsGo (c :: cur) rest

/-- Python `s.split()`: whitespace-delimited words, no empties. -/
def wordsL (l : List Char) : List (List Char) :=
  wordsGo [] l

/-- Python `s.lower()` on strings. -/
def pyLower (s : String) : String :=
  (lowerL s.data).asString

/-- Python `s.strip()` on strings. -/
def pyStrip (s : String) : String :=
  (stripL s.data).asString

/-- Python `pat in hay` on strings. -/
def pyContains (hay pat : String) : Bool :=
  containsL pat.data hay.data

/-- Python `s.replace(pat, '')` on strings. -/
def pyReplaceEmpty (s pat : String) : String :=
  (removeL pat.data s.data).asString

/-- Python `s.split(sep, 1)` when `sep` occurs in `s`: the parts before and
after the first occurrence. -/
def pySplitOnce (s sep : String) : Option (String × String) :=
  (splitOnceGo sep.data s.data.length s.data).map fun p => (p.1.asString, p.2.asString)

/-- The normalisation used by `_get_best_match` and `_is_official_channel`:
lowercase, keep alphanumeric characters and spaces only, strip
(`''.join(c for c in s.lower() if c.isalnum() or c.isspace()).strip()`). -/
def normText (s : String) : String :=
  (stripL ((lowerL s.data).filter fun c => pyIsAlnum c || pyIsSpace c)).asString

/-- Distinct-word intersection size: `len(set(q) & set(s))` where `q` and `s`
are already word lists. -/
def commonCount (qws sws : List (List Char)) : Nat :=
  (qws.dedup.filter fun w => sws.contains w).length

/-! ### Data model: one raw search result (`SearchCandidate`). -/

/-- One raw video search result, as consumed by the Match Engine
(`item['id']['videoId']`, `item['snippet']['title']`,
`item['snippet']['channelTitle']`). -/
structure Item where
  videoId : String
  title : String
  channelTitle : String
deriving DecidableEq

/-- Result of `_parse_title`: song plus optional artist. -/
structure ParsedTitle where
  song : String
  artist : Option String
deriving DecidableEq

/-! ### Match Engine (src/youtube_service.py lines 198 to 307, 439 to 481). -/

/-- The separator list of `_parse_title` (line 459). -/
def separators : List String :=
  [" - ", " – ", " — ", " | ", " // ", " ~ "]

/-- `_parse_title` (src/youtube_service.py lines 456 to 481): split on the
first present separator; classify the sides by case-insensitive containment of
the channel name; with no separator, strip the channel out of the title when
it occurs case-insensitively, else return the whole title as song. -/
def parse_title (title channel : String) : ParsedTitle :=
  match separators.find? (fun sep => pyContains title sep) with
  | some sep =>
    match pySplitOnce title sep with
    | some (artist, song) =>
      if pyContains (pyLower artist) (pyLower channel) then
        ⟨pyStrip song, some (pyStrip artist)⟩
      else if pyContains (pyLower song) (pyLower channel) then
        ⟨pyStrip artist, some (pyStrip song)⟩
      else
        ⟨pyStrip song, some (pyStrip artist)⟩
    | none => ⟨title, none⟩
  | none =>
    if pyContains (pyLower title) (pyLower channel) then
      ⟨pyStrip (pyReplaceEmpty title channel), some channel⟩
    else
      ⟨title, none⟩

/-- `_clean_title`'s replacement token list (lines 441 to 449). -/
def replacements : List String :=
  ["(Official Video)", "(Official Music Video)", "(Official Audio)",
   "[Official Video]", "[Official Music Video]", "[Official Audio]",
   "(Audio)", "[Audio]", "(Lyrics)", "[Lyrics]",
   "(Official Lyric Video)", "[Official Lyric Video]",
   "(Official Visualizer)", "[Official Visualizer]",
   "(Official)", "[Official]", "(HD)", "[HD]",
   "(HQ)", "[HQ]", "(4K)", "[4K]"]

/-- `_clean_title` (lines 439 to 454): remove every replacement token in list
order, then strip. -/
def clean_title (title : String) : String :=
  pyStrip (replacements.foldl (fun t r => pyReplaceEmpty t r) title)

/-- `_is_official_channel` (lines 270 to 307): keyword allow-list on the
lowered channel name, then (for a truthy artist argument) mutual substring
containment of the alphanumeric-normalised artist and channel. -/
def is_official_channel (channel_title : String) (artist_name : Option String) : Bool :=
  let channel_lower := pyLower channel_title
  if pyContains channel_lower "vevo" then true
  else if ["records", "music", "entertainment", "label", "studio"].any
      (fun k => pyContains channel_lower k) then true
  else if pyContains channel_lower "official" then true
  else
    match artist_name with
    | some a =>
      if a ≠ "" then
        let artist_lower := normText a
        let channel_clean :=
          (stripL (channel_lower.data.filter fun c => pyIsAlnum c || pyIsSpace c)).asString
        pyContains channel_clean artist_lower || pyContains artist_lower channel_clean
      else false
    | none => false

/-- The skip-keyword list of `_get_best_match` (lines 223 to 228). -/
def skip_keywords : List String :=
  ["cover", "karaoke", "instrumental", "remix", "live", "concert",
   "reaction", "review", "tutorial", "lesson", "how to", "behind the scenes",
   "acoustic", "piano version", "guitar version", "drum cover", "bass cover",
   "extended", "edit", "mix", "mashup", "medley", "tribute"]

/-- `artist = title_parts['artist'] or channel` (line 216): Python `or`
falls through on `None` and on the empty string. -/
def artistOf (it : Item) : String :=
  match (parse_title it.title it.channelTitle).artist with
  | some a => if a = "" then it.channelTitle else a
  | none => it.channelTitle

/-- A candidate survives both skip checks of the `_get_best_match` loop
(lines 219 to 229): official channel (with the derived artist) and no skip
keyword in the lowered title. -/
def eligibleItem (it : Item) : Bool :=
  is_official_channel it.channelTitle (some (artistOf it)) &&
    !(skip_keywords.any fun k => pyContains (pyLower it.title) k)

/-- The normalised parsed song title of a candidate (`song_clean`, line 233). -/
def songCleanOf (it : Item) : String :=
  normText (parse_title it.title it.channelTitle).song

/-- The score computed for an eligible candidate (lines 236 to 261):
100 on exact normalised match, otherwise 10 per distinct shared word between
the lowered query's words and the normalised song title's words, +20 for
substring containment either way, +15 for `vevo` else +10 for `official` in
the channel, +5 for `official audio` else +3 for `official music video` in
the title. -/
def scoreOf (query : String) (it : Item) : Nat :=
  if songCleanOf it = normText query then 100
  else
    commonCount (wordsL (pyLower query).data) (wordsL (songCleanOf it).data) * 10
    + (if pyContains (songCleanOf it) (normText query)
          || pyContains (normText query) (songCleanOf it) then 20 else 0)
    + (if pyContains (pyLower it.channelTitle) "vevo" then 15
       else if pyContains (pyLower it.channelTitle) "official" then 10 else 0)
    + (if pyContains (pyLower it.title) "official audio" then 5
       else if pyContains (pyLower it.title) "official music video" then 3 else 0)

/-- One iteration of the `_get_best_match` loop over `(best_match,
highest_score)`; `highest_score` is an integer because it starts at `-1`. -/
def bestStep (query : String) (acc : Option Item × Int) (it : Item) : Option Item × Int :=
  if eligibleItem it then
    if acc.2 < (scoreOf query it : Int) then (some it, (scoreOf query it : Int)) else acc
  else acc

/-- `_get_best_match` (lines 198 to 268): fold the scoring loop over the
results, starting from no best match and `highest_score = -1`. -/
def get_best_match (query : String) (results : List Item) : Option Item :=
  (results.foldl (bestStep query) (none, -1)).1

/-! ### Audio Cache Manager (src/app.py lines 65 to 104, 360 to 432, 474 to
490; src/youtube_service.py lines 392 to 437 and 483 to 511).

The cache directory is modelled as a list of files; `os.remove` is modelled as
always succeeding (the claims under verification presuppose that every
individual deletion succeeds). -/

/-- One on-disk file of the cache directory: name (its path), size in bytes,
last-access time (`st_atime`) and modification time (`st_mtime`). -/
structure CFile where
  name : String
  size : Nat
  atime : Nat
  mtime : Nat
deriving DecidableEq

/-- Python `name.endswith('.mp3')` on a file name. -/
def isMp3Name (n : String) : Bool :=
  ".mp3".data.isSuffixOf n.data

/-- Whether a cache file is counted by `get_cache_info`. -/
def isMp3 (f : CFile) : Bool :=
  isMp3Name f.name

/-- Sum of the sizes of a list of files. -/
def sizeSum (l : List CFile) : Nat :=
  (l.map CFile.size).sum

/-- The `.mp3` entries of the directory, in listing order. -/
def mp3Files (fs : List CFile) : List CFile :=
  fs.filter isMp3

/-- `CACHE_SIZE_LIMIT = 500 * 1024 * 1024` (src/app.py line 67). -/
def CACHE_SIZE_LIMIT : Nat := 500 * 1024 * 1024

/-- `CACHE_DURATION = 3600` (src/app.py line 66). -/
def CACHE_DURATION : Nat := 3600

/-- `get_cache_info` (src/app.py lines 69 to 85): total size and list of the
`.mp3` files of the cache directory. -/
def get_cache_info (fs : List CFile) : Nat × List CFile :=
  (sizeSum (fs.filter isMp3), fs.filter isMp3)

/-- The ascending last-access-time order used by
`cached_files.sort(key=lambda x: x['accessed'])`. -/
def atLe (a b : CFile) : Prop :=
  a.atime ≤ b.atime

instance : DecidableRel atLe := fun a b => Nat.decLe a.atime b.atime

instance : IsTotal CFile atLe := ⟨fun a b => Nat.le_total a.atime b.atime⟩

instance : IsTrans CFile atLe := ⟨fun _ _ _ => Nat.le_trans⟩

/-- The stable ascending sort by last-access time. -/
def sortByAtime (l : List CFile) : List CFile :=
  l.insertionSort atLe

/-- The deletion loop of `cleanup_old_cache` (lines 96 to 104) over the
atime-sorted file list: remove files one at a time, decrementing the running
total, breaking as soon as the total is at or below the limit.  Returns the
deleted files in deletion order. -/
def deleteUntil (limit : Nat) : Nat → List CFile → List CFile
  | _, [] => []
  | size, f :: rest =>
    f :: (if size - f.size ≤ limit then [] else deleteUntil limit (size - f.size) rest)

/-- Removing the listed file names from the directory. -/
def removeNames (fs : List CFile) (names : List String) : List CFile :=
  fs.filter fun f => !(names.contains f.name)

/-- `cleanup_old_cache` (src/app.py lines 87 to 104): when the `.mp3` total
reported by `get_cache_info` exceeds the limit, delete files in ascending
last-access order until at or below the limit (`sizeSum (mp3Files fs)` and
`mp3Files fs` are definitionally the two components of `get_cache_info fs`).
Returns the new directory state and the deletion log. -/
def cleanup_old_cache (fs : List CFile) : List CFile × List CFile :=
  if CACHE_SIZE_LIMIT < sizeSum (mp3Files fs) then
    (removeNames fs
      ((deleteUntil CACHE_SIZE_LIMIT (sizeSum (mp3Files fs))
        (sortByAtime (mp3Files fs))).map CFile.name),
     deleteUntil CACHE_SIZE_LIMIT (sizeSum (mp3Files fs)) (sortByAtime (mp3Files fs)))
  else (fs, [])

/-- The four stale-artifact paths removed by `cleanup_temp_files`
(src/app.py lines 474 to 482): `temp_<id>` plus each known extension. -/
def staleNames (vid : String) : List String :=
  ["audio_cache/temp_" ++ vid ++ ".part",
   "audio_cache/temp_" ++ vid ++ ".mp3",
   "audio_cache/temp_" ++ vid ++ ".webm",
   "audio_cache/temp_" ++ vid ++ ".m4a"]

/-- `cleanup_temp_files` (src/app.py lines 474 to 490). -/
def cleanup_temp_files (fs : List CFile) (vid : String) : List CFile :=
  fs.filter fun f => !((staleNames vid).contains f.name)

/-- `os.path.exists` over the modelled directory. -/
def pathExists (fs : List CFile) (p : String) : Bool :=
  fs.any fun f => f.name == p

/-- `os.path.exists(p) and os.path.getsize(p) > 0`. -/
def cachedNonempty (fs : List CFile) (p : String) : Bool :=
  match fs.find? (fun f => f.name == p) with
  | some f => 0 < f.size
  | none => false

/-- `os.remove(p)` when `p` may or may not exist. -/
def deleteIfExists (fs : List CFile) (p : String) : List CFile :=
  fs.filter fun f => !(f.name == p)

/-- The canonical cache path of a content id,
`os.path.join('audio_cache', f"{video_id}.mp3")`. -/
def audioPath (vid : String) : String :=
  "audio_cache/" ++ vid ++ ".mp3"

/-- The temp-file path used by `prepare_audio` and `get_audio` in app.py,
`os.path.join(TEMP_FOLDER, f"temp_{video_id}.mp3")`. -/
def tempName (vid : String) : String :=
  "audio_cache/temp_" ++ vid ++ ".mp3"

/-- The effective `YouTubeService.get_audio` (src/youtube_service.py lines 483
to 511 — the later definition in the class body, which shadows the one at
lines 392 to 437).  `dl` is the external downloader+converter
(`ydl.download`), returning the new directory state and whether it raised.
Result: new state, the returned path (`none` when the function raises), and
whether the downloader was invoked. -/
def get_audio (dl : List CFile → List CFile × Bool) (fs : List CFile) (vid : String) :
    List CFile × Option String × Bool :=
  if cachedNonempty fs (audioPath vid) then (fs, some (audioPath vid), false)
  else
    match dl fs with
    | (fs2, true) => (fs2, none, true)
    | (fs2, false) =>
      if pathExists fs2 (audioPath vid) then (fs2, some (audioPath vid), true)
      else (fs2, none, true)

/-- The shadowed `YouTubeService.get_audio` (src/youtube_service.py lines 392
to 437): verifies the output is present and non-empty, and deletes any
partially-written output file on every failure path before propagating. -/
def get_audio_v392 (dl : List CFile → List CFile × Bool) (fs : List CFile) (vid : String) :
    List CFile × Option String × Bool :=
  if cachedNonempty fs (audioPath vid) then (fs, some (audioPath vid), false)
  else
    match dl fs with
    | (fs2, true) => (deleteIfExists fs2 (audioPath vid), none, true)
    | (fs2, false) =>
      if cachedNonempty fs2 (audioPath vid) then (fs2, some (audioPath vid), true)
      else (deleteIfExists fs2 (audioPath vid), none, true)

/-- Outcome of the probe-then-download sequence inside `prepare_audio`
(src/app.py lines 399 to 428): a format was found and the download ran to
completion, no suitable format was found, or the attempt raised. -/
inductive DlOutcome where
  | ok
  | noFormat
  | raised
deriving DecidableEq

/-- HTTP-level outcome of `prepare_audio`. -/
inductive PrepStatus where
  | ready
  | success
  | errorNoFormat
  | errorRaised
deriving DecidableEq

/-- The cache-miss path of `prepare_audio` (src/app.py lines 376 to 428):
clean up stale temp files for the id, run the eviction pass, then invoke the
external downloader+converter. -/
def prepareMiss (dl : List CFile → List CFile × DlOutcome) (fs : List CFile)
    (vid : String) : List CFile × PrepStatus :=
  let fs2 := (cleanup_old_cache (cleanup_temp_files fs vid)).1
  match dl fs2 with
  | (fs3, DlOutcome.ok) => (fs3, PrepStatus.success)
  | (fs3, DlOutcome.noFormat) => (fs3, PrepStatus.errorNoFormat)
  | (fs3, DlOutcome.raised) => (fs3, PrepStatus.errorRaised)

/-- `prepare_audio` (src/app.py lines 360 to 432): return `ready` when the
temp file exists and is younger than `CACHE_DURATION`; otherwise run the
cache-miss path. -/
def prepare_audio (dl : List CFile → List CFile × DlOutcome) (now : Nat)
    (fs : List CFile) (vid : String) : List CFile × PrepStatus :=
  match fs.find? (fun f => f.name == tempName vid) with
  | some f =>
    if now - f.mtime < CACHE_DURATION then (fs, PrepStatus.ready)
    else prepareMiss dl fs vid
  | none => prepareMiss dl fs vid

/-! ### General helper lemmas about the embedded string operations. -/

theorem contains_iff_mem {l : List String} {s : String} : l.contains s = true ↔ s ∈ l := by
  simp [List.contains, List.elem_iff]

theorem removeGo_of_not_contains (pat : List Char) :
    ∀ (fuel : Nat) (l : List Char), containsL pat l = false → removeGo pat fuel l = l := by
  intro fuel
  induction fuel with
  | zero => intro l _; cases l <;> rfl
  | succ n ih =>
    intro l h
    cases l with
    | nil => rfl
    | cons c rest =>
      have h' := h
      unfold containsL at h'
      rcases Bool.or_eq_false_iff.mp h' with ⟨h1, h2⟩
      unfold removeGo
      rw [if_neg (by simp [h1])]
      rw [ih rest h2]

theorem pyReplaceEmpty_of_not_contains {s pat : String} (h : pyContains s pat = false) :
    pyReplaceEmpty s pat = s := by
  unfold pyReplaceEmpty removeL
  rw [removeGo_of_not_contains pat.data s.data.length s.data h]
  rfl

theorem foldl_replace_id :
    ∀ (rs : List String) (s : String), (∀ r ∈ rs, pyContains s r = false) →
      rs.foldl (fun t r => pyReplaceEmpty t r) s = s := by
  intro rs
  induction rs with
  | nil => intro s _; rfl
  | cons r rs ih =>
    intro s h
    have h1 : pyReplaceEmpty s r = s := pyReplaceEmpty_of_not_contains (h r (by simp))
    simp only [List.foldl_cons, h1]
    exact ih s fun t ht => h t (by simp [ht])

theorem dropWhile_head_false {α : Type} {p : α → Bool} :
    ∀ {l : List α}, (∀ a, l.head? = some a → p a = false) → l.dropWhile p = l := by
  intro l h
  cases l with
  | nil => rfl
  | cons c rest =>
    rw [List.dropWhile_cons, if_neg (by simp [h c rfl])]

theorem head?_dropWhile_false {α : Type} {p : α → Bool} :
    ∀ (l : List α) (a : α), (l.dropWhile p).head? = some a → p a = false := by
  intro l
  induction l with
  | nil => intro a h; simp at h
  | cons c rest ih =>
    intro a h
    rw [List.dropWhile_cons] at h
    by_cases hc : p c = true
    · rw [if_pos hc] at h
      exact ih a h
    · rw [if_neg hc] at h
      simp at h
      subst h
      exact Bool.eq_false_iff.mpr hc

theorem stripL_idem (l : List Char) : stripL (stripL l) = stripL l := by
  have key : ∀ m : List Char, (∀ a, m.head? = some a → pyIsSpace a = false) →
      (∀ a, m.reverse.head? = some a → pyIsSpace a = false) → stripL m = m := by
    intro m h1 h2
    show ((m.dropWhile pyIsSpace).reverse.dropWhile pyIsSpace).reverse = m
    rw [dropWhile_head_false h1, dropWhile_head_false h2, List.reverse_reverse]
  apply key
  · intro a ha
    have ha' : ((l.dropWhile pyIsSpace).reverse.dropWhile pyIsSpace).reverse.head? = some a := ha
    obtain ⟨t, ht⟩ := List.dropWhile_suffix (l := (l.dropWhile pyIsSpace).reverse) pyIsSpace
    have hAeq : l.dropWhile pyIsSpace =
        ((l.dropWhile pyIsSpace).reverse.dropWhile pyIsSpace).reverse ++ t.reverse := by
      have h := congrArg List.reverse ht
      simpa using h.symm
    cases hBr : ((l.dropWhile pyIsSpace).reverse.dropWhile pyIsSpace).reverse with
    | nil => rw [hBr] at ha'; simp at ha'
    | cons c cs =>
      rw [hBr] at ha'
      simp at ha'
      subst ha'
      rw [hBr] at hAeq
      exact head?_dropWhile_false l c (by rw [hAeq]; rfl)
  · intro a ha
    have ha' : ((l.dropWhile pyIsSpace).reverse.dropWhile pyIsSpace).reverse.reverse.head? =
        some a := ha
    rw [List.reverse_reverse] at ha'
    exact head?_dropWhile_false (l.dropWhile pyIsSpace).reverse a ha'

theorem pyStrip_idem (s : String) : pyStrip (pyStrip s) = pyStrip s := by
  show (stripL (stripL s.data).asString.data).asString = (stripL s.data).asString
  rw [show (stripL s.data).asString.data = stripL s.data from rfl, stripL_idem]

/-! ### Claim C6: idempotence of the title cleaner. -/

/-- Claim C6, counterexample: `_clean_title` is not idempotent.  On
`"(Official(HD) Video)"` the first pass removes only `(HD)` (the earlier
tokens are not yet present as substrings), producing `"(Official Video)"`,
which the second pass removes entirely. -/
theorem clean_title_not_idempotent :
    clean_title (clean_title "(Official(HD) Video)") ≠ clean_title "(Official(HD) Video)" := by
  decide

/-- Claim C6, amended: `_clean_title` is idempotent on every input whose
cleaned result contains none of the replacement tokens (removal can otherwise
splice two fragments into a fresh token, as the counterexample shows). -/
theorem clean_title_idempotent_of_clean
    (x : String) (h : ∀ t ∈ replacements, pyContains (clean_title x) t = false) :
    clean_title (clean_title x) = clean_title x := by
  have h1 : replacements.foldl (fun t r => pyReplaceEmpty t r) (clean_title x) = clean_title x :=
    foldl_replace_id replacements (clean_title x) h
  show pyStrip (replacements.foldl (fun t r => pyReplaceEmpty t r) (clean_title x)) = _
  rw [h1]
  exact pyStrip_idem _

/-- Claim C6, witness for the amended theorem at `"Song (HD)"`, whose cleaned
form `"Song"` contains no replacement token. -/
theorem clean_title_idempotent_of_clean_witness :
    clean_title (clean_title "Song (HD)") = clean_title "Song (HD)" :=
  clean_title_idempotent_of_clean "Song (HD)" (by decide)

/-! ### Claim C8: `_parse_title` with no separator present. -/

/-- Claim C8: when the title contains none of the separator substrings,
`_parse_title` returns the channel as artist and the title with the (exact
occurrences of the) channel name removed and stripped as song whenever the
channel name occurs case-insensitively in the title; otherwise it returns the
whole unmodified title as song with no artist. -/
theorem parse_title_no_separator (title channel : String)
    (hsep : ∀ s ∈ separators, pyContains title s = false) :
    (pyContains (pyLower title) (pyLower channel) = true →
      parse_title title channel =
        ⟨pyStrip (pyReplaceEmpty title channel), some channel⟩) ∧
    (pyContains (pyLower title) (pyLower channel) = false →
      parse_title title channel = ⟨title, none⟩) := by
  have hfind : separators.find? (fun sep => pyContains title sep) = none :=
    List.find?_eq_none.mpr fun s hs => by simp [hsep s hs]
  constructor
  · intro hc
    unfold parse_title
    rw [hfind]
    simp [hc]
  · intro hc
    unfold parse_title
    rw [hfind]
    simp [hc]

/-- Claim C8, witness at title `"Foo Bar"`, channel `"Foo"` (no separator,
channel contained in title). -/
theorem parse_title_no_separator_witness :
    parse_title "Foo Bar" "Foo" =
      ⟨pyStrip (pyReplaceEmpty "Foo Bar" "Foo"), some "Foo"⟩ :=
  (parse_title_no_separator "Foo Bar" "Foo" (by decide)).1 (by decide)

/-! ### Facts about the `_get_best_match` fold. -/

theorem bestStep_isSome (query : String) (acc : Option Item × Int) (it : Item)
    (h : acc.1.isSome = true) : ((bestStep query acc it).1).isSome = true := by
  unfold bestStep
  by_cases h1 : eligibleItem it = true
  · rw [if_pos h1]
    by_cases h2 : acc.2 < (scoreOf query it : Int)
    · rw [if_pos h2]; rfl
    · rw [if_neg h2]; exact h
  · rw [if_neg h1]; exact h

theorem foldl_bestStep_isSome (query : String) :
    ∀ (l : List Item) (acc : Option Item × Int), acc.1.isSome = true →
      ((l.foldl (bestStep query) acc).1).isSome = true := by
  intro l
  induction l with
  | nil => intro acc h; exact h
  | cons x rest ih =>
    intro acc h
    exact ih (bestStep query acc x) (bestStep_isSome query acc x h)

theorem foldl_bestStep_some_of_elig (query : String) :
    ∀ (l : List Item) (acc : Option Item × Int), acc.2 < 0 →
      (∃ it ∈ l, eligibleItem it = true) →
      ((l.foldl (bestStep query) acc).1).isSome = true := by
  intro l
  induction l with
  | nil =>
    intro acc _ h
    simp at h
  | cons x rest ih =>
    intro acc hneg h
    by_cases hx : eligibleItem x = true
    · have hlt : acc.2 < (scoreOf query x : Int) :=
        lt_of_lt_of_le hneg (Int.natCast_nonneg _)
      have hstep : (bestStep query acc x).1.isSome = true := by
        unfold bestStep
        rw [if_pos hx, if_pos hlt]
        rfl
      exact foldl_bestStep_isSome query rest _ hstep
    · have hstep : bestStep query acc x = acc := by
        unfold bestStep
        rw [if_neg hx]
      rw [List.foldl_cons, hstep]
      rcases h with ⟨it, hmem, helig⟩
      rcases List.mem_cons.mp hmem with heq | hmem'
      · exact absurd (heq ▸ helig) hx
      · exact ih acc hneg ⟨it, hmem', helig⟩

theorem foldl_bestStep_result (query : String) :
    ∀ (l : List Item) (acc : Option Item × Int) (it : Item),
      (l.foldl (bestStep query) acc).1 = some it →
      acc.1 = some it ∨ (it ∈ l ∧ eligibleItem it = true) := by
  intro l
  induction l with
  | nil => intro acc it h; exact Or.inl h
  | cons x rest ih =>
    intro acc it h
    rw [List.foldl_cons] at h
    rcases ih (bestStep query acc x) it h with hstep | ⟨hmem, helig⟩
    · unfold bestStep at hstep
      by_cases h1 : eligibleItem x = true
      · rw [if_pos h1] at hstep
        by_cases h2 : acc.2 < (scoreOf query x : Int)
        · rw [if_pos h2] at hstep
          simp at hstep
          exact Or.inr ⟨hstep ▸ List.mem_cons_self x rest, hstep ▸ h1⟩
        · rw [if_neg h2] at hstep
          exact Or.inl hstep
      · rw [if_neg h1] at hstep
        exact Or.inl hstep
    · exact Or.inr ⟨List.mem_cons_of_mem x hmem, helig⟩

/-! ### Claim C9: an eligible candidate is always returned. -/

/-- Claim C9: whenever the candidate list contains at least one eligible
candidate (official channel, no skip keyword), `_get_best_match` returns some
candidate: every score is a natural number, so it exceeds the initial
`highest_score = -1`. -/
theorem get_best_match_some_of_eligible (query : String) (results : List Item)
    (h : ∃ it ∈ results, eligibleItem it = true) :
    (get_best_match query results).isSome = true :=
  foldl_bestStep_some_of_elig query results (none, -1) (by decide) h

/-- Claim C9, witness: a single zero-scoring eligible candidate (channel
`"Music"` passes the keyword allow-list; the title shares no word with the
query) is still returned. -/
theorem get_best_match_some_of_eligible_witness :
    (get_best_match "zzz" [⟨"q", "q", "Music"⟩]).isSome = true :=
  get_best_match_some_of_eligible "zzz" [⟨"q", "q", "Music"⟩]
    ⟨⟨"q", "q", "Music"⟩, by decide, by decide⟩

/-! ### Claim C7: no excluded candidate is ever returned. -/

/-- Claim C7: a candidate returned by `_get_best_match` is one of the inputs,
its channel passes the `_is_official_channel` check (as called by the loop,
with the derived artist), and its lowered title contains no skip keyword. -/
theorem get_best_match_never_excluded (query : String) (results : List Item) (it : Item)
    (h : get_best_match query results = some it) :
    it ∈ results ∧
      is_official_channel it.channelTitle (some (artistOf it)) = true ∧
      (skip_keywords.any fun k => pyContains (pyLower it.title) k) = false := by
  rcases foldl_bestStep_result query results (none, -1) it h with hstart | ⟨hmem, helig⟩
  · exact absurd hstart (by simp)
  · unfold eligibleItem at helig
    simp only [Bool.and_eq_true, Bool.not_eq_true'] at helig
    exact ⟨hmem, helig.1, helig.2⟩

/-- Claim C7, witness: the spec's own scenario — the official candidate is
returned and satisfies both checks. -/
theorem get_best_match_never_excluded_witness :
    (⟨"a", "Ed Sheeran - Shape of You (Official Music Video)", "Ed Sheeran"⟩ : Item) ∈
      [(⟨"a", "Ed Sheeran - Shape of You (Official Music Video)", "Ed Sheeran"⟩ : Item),
       ⟨"b", "Shape of You - Piano Cover", "PianoCovers"⟩] ∧
      is_official_channel "Ed Sheeran"
        (some (artistOf ⟨"a", "Ed Sheeran - Shape of You (Official Music Video)", "Ed Sheeran"⟩)) =
        true ∧
      (skip_keywords.any fun k =>
        pyContains (pyLower "Ed Sheeran - Shape of You (Official Music Video)") k) = false :=
  get_best_match_never_excluded "Shape of You"
    [⟨"a", "Ed Sheeran - Shape of You (Official Music Video)", "Ed Sheeran"⟩,
     ⟨"b", "Shape of You - Piano Cover", "PianoCovers"⟩]
    ⟨"a", "Ed Sheeran - Shape of You (Official Music Video)", "Ed Sheeran"⟩
    (by decide)

/-! ### Claim C1: exact normalised title matches. -/

theorem scoreOf_eq_100_of_exact (query : String) (it : Item)
    (h : songCleanOf it = normText query) : scoreOf query it = 100 := by
  unfold scoreOf
  rw [if_pos h]

/-- Claim C1, counterexample: an eligible candidate whose normalised song
title is exactly the normalised query (score 100) loses to an eligible
non-exact candidate: with an eight-word query, the non-exact candidate scores
8 shared words (80) + containment (20) + vevo channel (15) + official audio
(5) = 120 > 100, so it is selected. -/
theorem exact_match_can_lose :
    eligibleItem ⟨"vidE", "a b c d e f g h", "OtherVEVO"⟩ = true ∧
    songCleanOf ⟨"vidE", "a b c d e f g h", "OtherVEVO"⟩ = normText "a b c d e f g h" ∧
    scoreOf "a b c d e f g h" ⟨"vidE", "a b c d e f g h", "OtherVEVO"⟩ = 100 ∧
    eligibleItem ⟨"vidN", "a b c d e f g h x official audio", "SomeVEVO"⟩ = true ∧
    songCleanOf ⟨"vidN", "a b c d e f g h x official audio", "SomeVEVO"⟩ ≠
      normText "a b c d e f g h" ∧
    get_best_match "a b c d e f g h"
      [⟨"vidE", "a b c d e f g h", "OtherVEVO"⟩,
       ⟨"vidN", "a b c d e f g h x official audio", "SomeVEVO"⟩] =
      some ⟨"vidN", "a b c d e f g h x official audio", "SomeVEVO"⟩ := by
  decide

theorem foldl_bestStep_exact (query : String) :
    ∀ (l : List Item) (acc : Option Item × Int),
      (∀ e ∈ l, eligibleItem e = true → songCleanOf e ≠ normText query →
        scoreOf query e < 100) →
      acc.2 ≤ 100 →
      (acc.2 = 100 → ∃ it, acc.1 = some it ∧ songCleanOf it = normText query) →
      ((∃ e ∈ l, eligibleItem e = true ∧ songCleanOf e = normText query) ∨ acc.2 = 100) →
      ∃ it, (l.foldl (bestStep query) acc).1 = some it ∧ songCleanOf it = normText query := by
  intro l
  induction l with
  | nil =>
    intro acc _ _ hJ hdisj
    rcases hdisj with ⟨e, he, _⟩ | h100
    · simp at he
    · exact hJ h100
  | cons x rest ih =>
    intro acc hlt hb hJ hdisj
    have hltx := fun h1 h2 => hlt x (List.mem_cons_self x rest) h1 h2
    have hltr : ∀ e ∈ rest, eligibleItem e = true → songCleanOf e ≠ normText query →
        scoreOf query e < 100 :=
      fun e he h1 h2 => hlt e (List.mem_cons_of_mem x he) h1 h2
    rw [List.foldl_cons]
    by_cases helig : eligibleItem x = true
    · have hSle : scoreOf query x ≤ 100 := by
        by_cases hx : songCleanOf x = normText query
        · rw [scoreOf_eq_100_of_exact query x hx]
        · exact le_of_lt (hltx helig hx)
      by_cases hrep : acc.2 < (scoreOf query x : Int)
      · have hstep : bestStep query acc x = (some x, (scoreOf query x : Int)) := by
          unfold bestStep
          rw [if_pos helig, if_pos hrep]
        rw [hstep]
        apply ih _ hltr
        · show (scoreOf query x : Int) ≤ 100
          exact_mod_cast hSle
        · intro h100
          have h100' : (scoreOf query x : Int) = 100 := h100
          have hS : scoreOf query x = 100 := by exact_mod_cast h100'
          by_cases hx : songCleanOf x = normText query
          · exact ⟨x, rfl, hx⟩
          · exact absurd hS (Nat.ne_of_lt (hltx helig hx))
        · rcases hdisj with ⟨e, he, heel, heex⟩ | h100
          · rcases List.mem_cons.mp he with heq | hmem'
            · subst heq
              right
              show (scoreOf query e : Int) = 100
              rw [scoreOf_eq_100_of_exact query e heex]
              rfl
            · exact Or.inl ⟨e, hmem', heel, heex⟩
          · exfalso
            rw [h100] at hrep
            have : (scoreOf query x : Int) ≤ 100 := by exact_mod_cast hSle
            omega
      · have hstep : bestStep query acc x = acc := by
          unfold bestStep
          rw [if_pos helig, if_neg hrep]
        rw [hstep]
        apply ih acc hltr hb hJ
        rcases hdisj with ⟨e, he, heel, heex⟩ | h100
        · rcases List.mem_cons.mp he with heq | hmem'
          · subst heq
            right
            have hS : scoreOf query e = 100 := scoreOf_eq_100_of_exact query e heex
            rw [hS] at hrep
            omega
          · exact Or.inl ⟨e, hmem', heel, heex⟩
        · exact Or.inr h100
    · have hstep : bestStep query acc x = acc := by
        unfold bestStep
        rw [if_neg helig]
      rw [hstep]
      apply ih acc hltr hb hJ
      rcases hdisj with ⟨e, he, heel, heex⟩ | h100
      · rcases List.mem_cons.mp he with heq | hmem'
        · exact absurd (heq ▸ heel) helig
        · exact Or.inl ⟨e, hmem', heel, heex⟩
      · exact Or.inr h100

/-- Claim C1, amended: a candidate whose normalised song title equals the
normalised query receives score exactly 100 from the scoring step, and —
provided every eligible non-exact candidate scores strictly below 100 (the
counterexample shows word-overlap plus bonuses can otherwise reach 120) —
`_get_best_match` selects a candidate with an exact normalised match whenever
an eligible one is present. -/
theorem exact_match_scores_100_and_wins (query : String) (results : List Item)
    (hex : ∃ e ∈ results, eligibleItem e = true ∧ songCleanOf e = normText query)
    (hlt : ∀ e ∈ results, eligibleItem e = true → songCleanOf e ≠ normText query →
      scoreOf query e < 100) :
    (∀ e ∈ results, songCleanOf e = normText query → scoreOf query e = 100) ∧
    ∃ it, get_best_match query results = some it ∧ songCleanOf it = normText query :=
  ⟨fun e _ he => scoreOf_eq_100_of_exact query e he,
   foldl_bestStep_exact query results (none, -1) hlt (by decide)
     (fun h => absurd h (by decide)) (Or.inl hex)⟩

/-- Claim C1, witness for the amended theorem: a single exact-match eligible
candidate is scored 100 and selected. -/
theorem exact_match_scores_100_and_wins_witness :
    (∀ e ∈ [(⟨"vidE", "a b c d e f g h", "OtherVEVO"⟩ : Item)],
      songCleanOf e = normText "a b c d e f g h" → scoreOf "a b c d e f g h" e = 100) ∧
    ∃ it, get_best_match "a b c d e f g h" [⟨"vidE", "a b c d e f g h", "OtherVEVO"⟩] =
        some it ∧ songCleanOf it = normText "a b c d e f g h" :=
  exact_match_scores_100_and_wins "a b c d e f g h"
    [⟨"vidE", "a b c d e f g h", "OtherVEVO"⟩] (by decide) (by decide)

/-! ### Downloader fixtures used to evaluate the cache claims. -/

/-- A downloader run that "succeeds" but leaves a zero-byte output file at
the canonical path for id `abc`. -/
def emptyOutputDl : List CFile → List CFile × Bool :=
  fun fs => (fs ++ [⟨audioPath "abc", 0, 0, 0⟩], false)

/-- A downloader run that writes a partial output file at the canonical path
for id `abc` and then raises. -/
def raisingPartialDl : List CFile → List CFile × Bool :=
  fun fs => (fs ++ [⟨audioPath "abc", 777, 0, 0⟩], true)

/-- A downloader run that succeeds and writes a normal output file for id
`abc`. -/
def okDl : List CFile → List CFile × Bool :=
  fun fs => (fs ++ [⟨audioPath "abc", 99, 3, 3⟩], false)

/-! ### Claim C3: output verification and failure cleanup in `get_audio`. -/

/-- Claim C3 (code bug): the effective `get_audio` (the later definition,
lines 483 to 511, which shadows the careful one at lines 392 to 437) does
not verify that the output is non-empty and does not delete the
partially-written file on failure.  Evaluated at the failing inputs: a
zero-byte output is returned as success with the empty file left in place,
and a raising download leaves its partial file behind; the shadowed
lines-392 version — matching the claim — rejects the empty output and
deletes the partial file in both cases. -/
theorem get_audio_missing_verification :
    get_audio emptyOutputDl [] "abc" =
      ([⟨"audio_cache/abc.mp3", 0, 0, 0⟩], some "audio_cache/abc.mp3", true) ∧
    get_audio_v392 emptyOutputDl [] "abc" = ([], none, true) ∧
    get_audio raisingPartialDl [] "abc" =
      ([⟨"audio_cache/abc.mp3", 777, 0, 0⟩], none, true) ∧
    get_audio_v392 raisingPartialDl [] "abc" = ([], none, true) := by
  decide

/-! ### Claim C5: second call after a success. -/

/-- Claim C5 (code bug): after a first `get_audio` call that succeeds (here
returning the path of the zero-byte file the downloader produced), the second
immediate call re-invokes the external downloader instead of taking the
cache-hit branch, because the hit test requires a non-zero size that the
first call never verified. -/
theorem get_audio_second_call_downloads_again :
    (get_audio emptyOutputDl [] "abc").2.1 = some "audio_cache/abc.mp3" ∧
    get_audio emptyOutputDl (get_audio emptyOutputDl [] "abc").1 "abc" =
      ([⟨"audio_cache/abc.mp3", 0, 0, 0⟩, ⟨"audio_cache/abc.mp3", 0, 0, 0⟩],
       some "audio_cache/abc.mp3", true) := by
  decide

/-! ### Claim C4: stale-artifact removal and eviction before download. -/

/-- Claim C4, counterexample: on a cache miss, `get_audio` invokes the
downloader directly — with a stale `.webm` artifact for the id still present
and the `.mp3` total still above the quota — and both survive the whole
call: no stale-artifact removal and no eviction pass happen inside
`get_audio` (they live in app.py's `prepare_audio`). -/
theorem get_audio_no_cleanup_no_eviction :
    get_audio okDl
      [⟨"audio_cache/old.mp3", 629145600, 1, 1⟩, ⟨"audio_cache/abc.webm", 10, 2, 2⟩] "abc" =
      ([⟨"audio_cache/old.mp3", 629145600, 1, 1⟩, ⟨"audio_cache/abc.webm", 10, 2, 2⟩,
        ⟨"audio_cache/abc.mp3", 99, 3, 3⟩], some "audio_cache/abc.mp3", true) ∧
    pathExists
      (get_audio okDl
        [⟨"audio_cache/old.mp3", 629145600, 1, 1⟩, ⟨"audio_cache/abc.webm", 10, 2, 2⟩] "abc").1
      "audio_cache/abc.webm" = true ∧
    CACHE_SIZE_LIMIT <
      sizeSum (mp3Files
        (get_audio okDl
          [⟨"audio_cache/old.mp3", 629145600, 1, 1⟩, ⟨"audio_cache/abc.webm", 10, 2, 2⟩]
          "abc").1) := by
  decide

/-! ### Facts about the eviction pass. -/

theorem sizeSum_nil : sizeSum [] = 0 := rfl

theorem sizeSum_cons (f : CFile) (l : List CFile) :
    sizeSum (f :: l) = f.size + sizeSum l := by
  unfold sizeSum
  rw [List.map_cons, List.sum_cons]

theorem sizeSum_append (l1 l2 : List CFile) :
    sizeSum (l1 ++ l2) = sizeSum l1 + sizeSum l2 := by
  unfold sizeSum
  rw [List.map_append, List.sum_append]

theorem sizeSum_perm {l1 l2 : List CFile} (h : l1.Perm l2) : sizeSum l1 = sizeSum l2 :=
  (h.map CFile.size).sum_eq

theorem sizeSum_filter_le (p : CFile → Bool) (l : List CFile) :
    sizeSum (l.filter p) ≤ sizeSum l := by
  induction l with
  | nil => exact Nat.le_refl 0
  | cons f rest ih =>
    by_cases hf : p f = true
    · rw [List.filter_cons_of_pos hf, sizeSum_cons, sizeSum_cons]
      omega
    · rw [List.filter_cons_of_neg hf, sizeSum_cons]
      omega

theorem deleteUntil_eq_take (limit : Nat) :
    ∀ (l : List CFile) (size : Nat), ∃ k, deleteUntil limit size l = l.take k := by
  intro l
  induction l with
  | nil => intro _; exact ⟨0, rfl⟩
  | cons f rest ih =>
    intro size
    by_cases h : size - f.size ≤ limit
    · refine ⟨1, ?_⟩
      unfold deleteUntil
      rw [if_pos h]
      rfl
    · obtain ⟨k, hk⟩ := ih (size - f.size)
      refine ⟨k + 1, ?_⟩
      unfold deleteUntil
      rw [if_neg h, hk]
      rfl

theorem deleteUntil_sum (limit : Nat) :
    ∀ (l : List CFile) (size : Nat), size = sizeSum l → limit < size →
      sizeSum l ≤ sizeSum (deleteUntil limit size l) + limit := by
  intro l
  induction l with
  | nil =>
    intro size hs hl
    have h0 : size = 0 := hs
    omega
  | cons f rest ih =>
    intro size hs hl
    have hrest : size - f.size = sizeSum rest := by
      rw [hs, sizeSum_cons]
      omega
    by_cases h : size - f.size ≤ limit
    · unfold deleteUntil
      rw [if_pos h, sizeSum_cons, sizeSum_cons, sizeSum_nil]
      omega
    · unfold deleteUntil
      rw [if_neg h]
      have ih' := ih (size - f.size) hrest (by omega)
      rw [sizeSum_cons, sizeSum_cons]
      omega

theorem deleteUntil_mem {limit : Nat} :
    ∀ {l : List CFile} {size : Nat} {d : CFile}, d ∈ deleteUntil limit size l → d ∈ l := by
  intro l
  induction l with
  | nil =>
    intro size d h
    exact absurd h (by simp [deleteUntil])
  | cons f rest ih =>
    intro size d h
    unfold deleteUntil at h
    rcases List.mem_cons.mp h with heq | hmem
    · exact heq ▸ List.mem_cons_self f rest
    · by_cases hc : size - f.size ≤ limit
      · rw [if_pos hc] at hmem
        simp at hmem
      · rw [if_neg hc] at hmem
        exact List.mem_cons_of_mem f (ih hmem)

theorem mp3Files_removeNames (fs : List CFile) (names : List String) :
    mp3Files (removeNames fs names) =
      (mp3Files fs).filter (fun f => !(names.contains f.name)) := by
  unfold mp3Files removeNames
  rw [List.filter_filter, List.filter_filter]
  exact List.filter_congr fun f _ => Bool.and_comm _ _

theorem survivors_perm (fs : List CFile) (hover : CACHE_SIZE_LIMIT < sizeSum (mp3Files fs)) :
    ∃ k,
      deleteUntil CACHE_SIZE_LIMIT (sizeSum (mp3Files fs)) (sortByAtime (mp3Files fs)) =
        (sortByAtime (mp3Files fs)).take k ∧
      (cleanup_old_cache fs).2 = (sortByAtime (mp3Files fs)).take k ∧
      (mp3Files (cleanup_old_cache fs).1).Perm
        (((sortByAtime (mp3Files fs)).drop k).filter
          (fun f =>
            !((((sortByAtime (mp3Files fs)).take k).map CFile.name).contains f.name))) := by
  obtain ⟨k, hk⟩ := deleteUntil_eq_take CACHE_SIZE_LIMIT (sortByAtime (mp3Files fs))
    (sizeSum (mp3Files fs))
  refine ⟨k, hk, ?_, ?_⟩
  · unfold cleanup_old_cache
    rw [if_pos hover]
    exact hk
  · unfold cleanup_old_cache
    rw [if_pos hover]
    show (mp3Files (removeNames fs _)).Perm _
    rw [mp3Files_removeNames, hk]
    set dn := ((sortByAtime (mp3Files fs)).take k).map CFile.name with hdn
    set s := sortByAtime (mp3Files fs) with hs
    have hperm0 : s.Perm (mp3Files fs) := by
      rw [hs]
      exact List.perm_insertionSort atLe (mp3Files fs)
    have hp := List.Perm.filter (fun f => !(dn.contains f.name)) hperm0
    refine hp.symm.trans ?_
    have hnil : (s.take k).filter (fun f => !(dn.contains f.name)) = [] := by
      apply List.filter_eq_nil_iff.mpr
      intro f hf
      have hm : f.name ∈ dn := by
        rw [hdn]
        exact List.mem_map_of_mem CFile.name hf
      simpa using hm
    have heq : s.filter (fun f => !(dn.contains f.name)) =
        (s.drop k).filter (fun f => !(dn.contains f.name)) := by
      conv_lhs => rw [← List.take_append_drop k s]
      rw [List.filter_append, hnil, List.nil_append]
    rw [heq]

/-! ### Claim C2: correctness of the eviction pass. -/

/-- Claim C2: when the `.mp3` files sum above the quota (and every deletion
succeeds, as the model assumes), after `cleanup_old_cache` the remaining
`.mp3` total is at or below the quota, the deletion log is ascending in
last-access time, every deleted file is no younger than every surviving
`.mp3` file, and the deletions are exactly a prefix of the atime-sorted cache
— so the survivors are exactly the most-recently-accessed files. -/
theorem cleanup_old_cache_correct (fs : List CFile)
    (hnd : (fs.map CFile.name).Nodup)
    (hover : CACHE_SIZE_LIMIT < sizeSum (mp3Files fs)) :
    sizeSum (mp3Files (cleanup_old_cache fs).1) ≤ CACHE_SIZE_LIMIT ∧
    List.Pairwise atLe (cleanup_old_cache fs).2 ∧
    (∀ d ∈ (cleanup_old_cache fs).2, ∀ s ∈ mp3Files (cleanup_old_cache fs).1,
      d.atime ≤ s.atime) ∧
    ∃ k, (cleanup_old_cache fs).2 = (sortByAtime (mp3Files fs)).take k ∧
      (mp3Files (cleanup_old_cache fs).1).Perm ((sortByAtime (mp3Files fs)).drop k) := by
  obtain ⟨k, hkdel, hk2, hperm⟩ := survivors_perm fs hover
  have hnd1 : ((mp3Files fs).map CFile.name).Nodup :=
    List.Nodup.sublist (List.Sublist.map CFile.name (List.filter_sublist fs)) hnd
  have hnd2 : ((sortByAtime (mp3Files fs)).map CFile.name).Nodup :=
    List.Perm.nodup
      (List.Perm.map CFile.name (List.perm_insertionSort atLe (mp3Files fs))).symm hnd1
  have hkeep : ((sortByAtime (mp3Files fs)).drop k).filter
      (fun f => !((((sortByAtime (mp3Files fs)).take k).map CFile.name).contains f.name)) =
      (sortByAtime (mp3Files fs)).drop k := by
    apply List.filter_eq_self.mpr
    intro f hf
    have hnotin : f.name ∉ ((sortByAtime (mp3Files fs)).take k).map CFile.name := by
      intro hin
      have hin2 : f.name ∈ ((sortByAtime (mp3Files fs)).drop k).map CFile.name :=
        List.mem_map_of_mem CFile.name hf
      have hnd3 := hnd2
      rw [← List.take_append_drop k (sortByAtime (mp3Files fs)), List.map_append] at hnd3
      rcases List.nodup_append.mp hnd3 with ⟨_, _, hdisj⟩
      exact hdisj hin hin2
    have hc : (((sortByAtime (mp3Files fs)).take k).map CFile.name).contains f.name = false := by
      by_contra hcon
      rw [Bool.not_eq_false] at hcon
      exact hnotin (contains_iff_mem.mp hcon)
    rw [hc]
    rfl
  have hperm2 : (mp3Files (cleanup_old_cache fs).1).Perm
      ((sortByAtime (mp3Files fs)).drop k) := by
    rw [hkeep] at hperm
    exact hperm
  have hsorted : List.Pairwise atLe (sortByAtime (mp3Files fs)) :=
    List.sorted_insertionSort atLe (mp3Files fs)
  have hsplit : List.Pairwise atLe
      ((sortByAtime (mp3Files fs)).take k ++ (sortByAtime (mp3Files fs)).drop k) := by
    rw [List.take_append_drop]
    exact hsorted
  rcases List.pairwise_append.mp hsplit with ⟨hp1, _, hcross⟩
  refine ⟨?_, ?_, ?_, ⟨k, hk2, hperm2⟩⟩
  · have h1 : sizeSum (mp3Files (cleanup_old_cache fs).1) =
        sizeSum ((sortByAtime (mp3Files fs)).drop k) := sizeSum_perm hperm2
    have htot : sizeSum (mp3Files fs) = sizeSum (sortByAtime (mp3Files fs)) :=
      (sizeSum_perm (List.perm_insertionSort atLe (mp3Files fs))).symm
    have hsum := deleteUntil_sum CACHE_SIZE_LIMIT (sortByAtime (mp3Files fs))
      (sizeSum (mp3Files fs)) htot hover
    rw [hkdel] at hsum
    have happ : sizeSum ((sortByAtime (mp3Files fs)).take k) +
        sizeSum ((sortByAtime (mp3Files fs)).drop k) =
        sizeSum (sortByAtime (mp3Files fs)) := by
      rw [← sizeSum_append, List.take_append_drop]
    omega
  · rw [hk2]
    exact hp1
  · intro d hd s hs
    rw [hk2] at hd
    exact hcross d hd s (hperm2.mem_iff.mp hs)

/-- Claim C2, witness: two 300 MiB files summing to 600 MiB against the
500 MiB quota; the older one is evicted. -/
theorem cleanup_old_cache_correct_witness :
    sizeSum (mp3Files (cleanup_old_cache
        [⟨"audio_cache/a.mp3", 314572800, 10, 0⟩,
         ⟨"audio_cache/b.mp3", 314572800, 5, 0⟩]).1) ≤ CACHE_SIZE_LIMIT ∧
    List.Pairwise atLe (cleanup_old_cache
        [⟨"audio_cache/a.mp3", 314572800, 10, 0⟩,
         ⟨"audio_cache/b.mp3", 314572800, 5, 0⟩]).2 ∧
    (∀ d ∈ (cleanup_old_cache
        [⟨"audio_cache/a.mp3", 314572800, 10, 0⟩,
         ⟨"audio_cache/b.mp3", 314572800, 5, 0⟩]).2,
      ∀ s ∈ mp3Files (cleanup_old_cache
        [⟨"audio_cache/a.mp3", 314572800, 10, 0⟩,
         ⟨"audio_cache/b.mp3", 314572800, 5, 0⟩]).1, d.atime ≤ s.atime) ∧
    ∃ k, (cleanup_old_cache
        [⟨"audio_cache/a.mp3", 314572800, 10, 0⟩,
         ⟨"audio_cache/b.mp3", 314572800, 5, 0⟩]).2 =
      (sortByAtime (mp3Files
        [⟨"audio_cache/a.mp3", 314572800, 10, 0⟩,
         ⟨"audio_cache/b.mp3", 314572800, 5, 0⟩])).take k ∧
      (mp3Files (cleanup_old_cache
        [⟨"audio_cache/a.mp3", 314572800, 10, 0⟩,
         ⟨"audio_cache/b.mp3", 314572800, 5, 0⟩]).1).Perm
        ((sortByAtime (mp3Files
          [⟨"audio_cache/a.mp3", 314572800, 10, 0⟩,
           ⟨"audio_cache/b.mp3", 314572800, 5, 0⟩])).drop k) :=
  cleanup_old_cache_correct
    [⟨"audio_cache/a.mp3", 314572800, 10, 0⟩, ⟨"audio_cache/b.mp3", 314572800, 5, 0⟩]
    (by decide) (by decide)

/-! ### Claim C10: the eviction pass ignores non-mp3 files. -/

theorem deleted_all_mp3 (fs : List CFile) :
    ∀ d ∈ (cleanup_old_cache fs).2, isMp3 d = true := by
  intro d hd
  unfold cleanup_old_cache at hd
  by_cases hov : CACHE_SIZE_LIMIT < sizeSum (mp3Files fs)
  · rw [if_pos hov] at hd
    have hd' : d ∈ deleteUntil CACHE_SIZE_LIMIT (sizeSum (mp3Files fs))
        (sortByAtime (mp3Files fs)) := hd
    have h1 : d ∈ sortByAtime (mp3Files fs) := deleteUntil_mem hd'
    have h2 : d ∈ mp3Files fs := (List.perm_insertionSort atLe (mp3Files fs)).mem_iff.mp h1
    exact (List.mem_filter.mp h2).2
  · rw [if_neg hov] at hd
    have hd' : d ∈ ([] : List CFile) := hd
    simp at hd'

/-- Claim C10: a non-`.mp3` file in the cache directory is neither counted by
`get_cache_info` toward the cache size nor touched by `cleanup_old_cache`:
the non-`.mp3` entries of the directory are unchanged by an eviction pass,
every deleted file is an `.mp3` file, and prepending a non-`.mp3` file leaves
the reported total unchanged. -/
theorem cleanup_preserves_non_mp3 (fs : List CFile) :
    ((cleanup_old_cache fs).1.filter (fun f => !(isMp3 f)) =
      fs.filter (fun f => !(isMp3 f))) ∧
    (∀ d ∈ (cleanup_old_cache fs).2, isMp3 d = true) ∧
    (∀ g : CFile, isMp3 g = false →
      (get_cache_info (g :: fs)).1 = (get_cache_info fs).1) := by
  refine ⟨?_, deleted_all_mp3 fs, ?_⟩
  · by_cases hov : CACHE_SIZE_LIMIT < sizeSum (mp3Files fs)
    · unfold cleanup_old_cache
      rw [if_pos hov]
      show (removeNames fs _).filter _ = _
      unfold removeNames
      rw [List.filter_filter]
      apply List.filter_congr
      intro f hf
      by_cases hm : isMp3 f = true
      · simp only [hm, Bool.not_true, Bool.false_and]
      · have hm' : isMp3 f = false := Bool.eq_false_iff.mpr hm
        have hcf : ((deleteUntil CACHE_SIZE_LIMIT (sizeSum (mp3Files fs))
            (sortByAtime (mp3Files fs))).map CFile.name).contains f.name = false := by
          by_contra hcon
          rw [Bool.not_eq_false] at hcon
          obtain ⟨d, hdmem, hdname⟩ := List.mem_map.mp (contains_iff_mem.mp hcon)
          have hdm : isMp3 d = true := by
            apply deleted_all_mp3 fs
            show d ∈ (cleanup_old_cache fs).2
            unfold cleanup_old_cache
            rw [if_pos hov]
            exact hdmem
          unfold isMp3 at hdm hm'
          rw [hdname] at hdm
          rw [hdm] at hm'
          exact Bool.noConfusion hm'
        rw [hm', hcf]
        rfl
    · unfold cleanup_old_cache
      rw [if_neg hov]
  · intro g hg
    show sizeSum ((g :: fs).filter isMp3) = sizeSum (fs.filter isMp3)
    rw [List.filter_cons_of_neg (by simp [hg])]

/-- Claim C10, witness: a `.webm` leftover survives the pass unchanged and a
`.part` file does not change the reported total. -/
theorem cleanup_preserves_non_mp3_witness :
    ((cleanup_old_cache [⟨"audio_cache/x.webm", 5, 1, 1⟩]).1.filter
        (fun f => !(isMp3 f)) =
      [(⟨"audio_cache/x.webm", 5, 1, 1⟩ : CFile)].filter (fun f => !(isMp3 f))) ∧
    (get_cache_info ((⟨"audio_cache/y.part", 3, 2, 2⟩ : CFile) ::
        [⟨"audio_cache/x.webm", 5, 1, 1⟩])).1 =
      (get_cache_info [(⟨"audio_cache/x.webm", 5, 1, 1⟩ : CFile)]).1 := by
  have h := cleanup_preserves_non_mp3 [⟨"audio_cache/x.webm", 5, 1, 1⟩]
  exact ⟨h.1, h.2.2 ⟨"audio_cache/y.part", 3, 2, 2⟩ (by decide)⟩

/-! ### Claim C4 (amended): cleanup and eviction happen in `prepare_audio`. -/

theorem evict_total_le (fs : List CFile) :
    sizeSum (mp3Files (cleanup_old_cache fs).1) ≤ CACHE_SIZE_LIMIT := by
  by_cases hov : CACHE_SIZE_LIMIT < sizeSum (mp3Files fs)
  · obtain ⟨k, hkdel, _, hperm⟩ := survivors_perm fs hov
    have h1 := sizeSum_perm hperm
    have h2 := sizeSum_filter_le
      (fun f => !((((sortByAtime (mp3Files fs)).take k).map CFile.name).contains f.name))
      ((sortByAtime (mp3Files fs)).drop k)
    have htot : sizeSum (mp3Files fs) = sizeSum (sortByAtime (mp3Files fs)) :=
      (sizeSum_perm (List.perm_insertionSort atLe (mp3Files fs))).symm
    have hsum := deleteUntil_sum CACHE_SIZE_LIMIT (sortByAtime (mp3Files fs))
      (sizeSum (mp3Files fs)) htot hov
    rw [hkdel] at hsum
    have happ : sizeSum ((sortByAtime (mp3Files fs)).take k) +
        sizeSum ((sortByAtime (mp3Files fs)).drop k) =
        sizeSum (sortByAtime (mp3Files fs)) := by
      rw [← sizeSum_append, List.take_append_drop]
    omega
  · unfold cleanup_old_cache
    rw [if_neg hov]
    show sizeSum (mp3Files fs) ≤ CACHE_SIZE_LIMIT
    omega

theorem cleanup_fst_sublist (fs : List CFile) : ((cleanup_old_cache fs).1).Sublist fs := by
  unfold cleanup_old_cache
  by_cases hov : CACHE_SIZE_LIMIT < sizeSum (mp3Files fs)
  · rw [if_pos hov]
    exact List.filter_sublist fs
  · rw [if_neg hov]

theorem pathExists_false_of_sublist {fs fs' : List CFile} {p : String}
    (hsub : fs'.Sublist fs) (h : pathExists fs p = false) : pathExists fs' p = false := by
  by_contra hcon
  rw [Bool.not_eq_false] at hcon
  obtain ⟨f, hf, hfp⟩ := List.any_eq_true.mp hcon
  have hall : pathExists fs p = true := List.any_eq_true.mpr ⟨f, hsub.subset hf, hfp⟩
  rw [h] at hall
  exact Bool.noConfusion hall

theorem cleanup_temp_removes (fs : List CFile) (vid p : String) (hp : p ∈ staleNames vid) :
    pathExists (cleanup_temp_files fs vid) p = false := by
  by_contra hcon
  rw [Bool.not_eq_false] at hcon
  obtain ⟨f, hf, hfp⟩ := List.any_eq_true.mp hcon
  have hkeep := (List.mem_filter.mp hf).2
  simp only [Bool.not_eq_true'] at hkeep
  have hname : f.name = p := by simpa using hfp
  have hmem : (staleNames vid).contains f.name = true := by
    apply contains_iff_mem.mpr
    rw [hname]
    exact hp
  rw [hmem] at hkeep
  exact Bool.noConfusion hkeep

/-- Claim C4, amended: the stale-artifact removal and eviction pass live in
app.py's `prepare_audio` (for the `temp_<id>` naming scheme it manages), not
in `get_audio`.  On a `prepare_audio` miss — the temp file absent or at least
`CACHE_DURATION` old — the external downloader is invoked on a state from
which all four stale artifacts for the id have been removed and whose `.mp3`
total is at or below the quota, and nothing else happens before that call. -/
theorem prepare_audio_cleans_before_download
    (dl : List CFile → List CFile × DlOutcome) (now : Nat) (fs : List CFile) (vid : String)
    (hmiss : (fs.find? (fun f => f.name == tempName vid)).elim True
      (fun f => CACHE_DURATION ≤ now - f.mtime)) :
    ∃ fs2,
      (∀ p ∈ staleNames vid, pathExists fs2 p = false) ∧
      sizeSum (mp3Files fs2) ≤ CACHE_SIZE_LIMIT ∧
      prepare_audio dl now fs vid =
        (match dl fs2 with
         | (fs3, DlOutcome.ok) => (fs3, PrepStatus.success)
         | (fs3, DlOutcome.noFormat) => (fs3, PrepStatus.errorNoFormat)
         | (fs3, DlOutcome.raised) => (fs3, PrepStatus.errorRaised)) := by
  refine ⟨(cleanup_old_cache (cleanup_temp_files fs vid)).1, ?_, evict_total_le _, ?_⟩
  · intro p hp
    exact pathExists_false_of_sublist (cleanup_fst_sublist _)
      (cleanup_temp_removes fs vid p hp)
  · unfold prepare_audio
    cases hf : fs.find? (fun f => f.name == tempName vid) with
    | none => rfl
    | some f =>
      rw [hf] at hmiss
      simp only [Option.elim] at hmiss
      have hnlt : ¬ (now - f.mtime < CACHE_DURATION) := by omega
      show (if now - f.mtime < CACHE_DURATION then (fs, PrepStatus.ready)
        else prepareMiss dl fs vid) = _
      rw [if_neg hnlt]
      rfl

/-- Claim C4, witness for the amended theorem: a stale 4000-second-old temp
file for id `abc` triggers the miss path. -/
theorem prepare_audio_cleans_before_download_witness :
    ∃ fs2,
      (∀ p ∈ staleNames "abc", pathExists fs2 p = false) ∧
      sizeSum (mp3Files fs2) ≤ CACHE_SIZE_LIMIT ∧
      prepare_audio (fun l => (l, DlOutcome.ok)) 4000
          [⟨"audio_cache/temp_abc.mp3", 7, 0, 0⟩] "abc" =
        (match (fun (l : List CFile) => (l, DlOutcome.ok)) fs2 with
         | (fs3, DlOutcome.ok) => (fs3, PrepStatus.success)
         | (fs3, DlOutcome.noFormat) => (fs3, PrepStatus.errorNoFormat)
         | (fs3, DlOutcome.raised) => (fs3, PrepStatus.errorRaised)) :=
  prepare_audio_cleans_before_download (fun l => (l, DlOutcome.ok)) 4000
    [⟨"audio_cache/temp_abc.mp3", 7, 0, 0⟩] "abc"
    (show (3600 : Nat) ≤ 4000 - 0 by decide)

end MusicApp
